import Mathlib

/-!
Verification of the ACTINN data-preparation pipeline (Data_IO/CSV_IO.py).

The embedding models the three functions the claims are about:

* scale_sets: gene-set harmonization and normalization of a list of
  feature-by-sample matrices (pandas DataFrames).  A DataFrame is modelled
  as a row-label list together with a row-major rational matrix; the column
  count is carried explicitly (pandas keeps columns even when a row
  selection is empty).  Matrix entries are exact rationals standing for the
  reference implementation's floating-point values.  The two irrational
  elementwise functions of the pipeline, log2(x+1) (applied to every entry
  after library-size normalization) and sqrt (inside np.std), are abstract
  parameters lg and rsqrt of the embedding; every general theorem below is
  proved for all choices of these functions, and concrete evaluations
  instantiate them with explicit functions.  np.percentile on an empty
  array raises in numpy; the embedding returns none there, and scale_sets
  propagates that as the only error the source can raise.  The rational
  pipeline models the computation on finite values; np.divide by a zero
  column sum does not raise in the reference but produces NaN, whose
  propagation through the filters is modelled separately by the
  float-extended scalars (EF below: an Option with none standing for NaN)
  and their copy of the pipeline, which the zero-column-sum theorems use.
  No theorem about the rational pipeline depends on the rational
  convention x / 0 = 0: each either excludes zero divisors by hypothesis
  or concerns inputs and stages where no zero divisor occurs.

* type2label_dict / convert_type2label: the label codec.  Python's
  list(set(types)) enumerates the distinct labels in an unspecified order;
  the model uses first-occurrence order (List.dedup), and no theorem below
  depends on the enumeration order.  Dictionaries are association lists.

* a small object-store model of Python list mutation, used to express that
  scale_sets overwrites the elements of its argument list in place and
  returns the very same list object.
-/

/-- A pandas DataFrame of shape (index.length, ncols): feature-by-sample
expression matrix, row-major. -/
structure DF where
  index : List String
  ncols : Nat
  mat : List (List ℚ)

/-- Well-formedness: one matrix row per index label, all rows of width ncols. -/
def DF.WF (d : DF) : Prop :=
  d.mat.length = d.index.length ∧ ∀ r ∈ d.mat, r.length = d.ncols

/-- Row selection by label, first match (pandas .loc on a unique index). -/
def locRow (d : DF) (g : String) : List ℚ :=
  match (d.index.zip d.mat).find? (fun p => decide (p.1 = g)) with
  | some p => p.2
  | none => []

/-- sets[i].loc[common_genes,]: re-index a DataFrame to the given row
labels, keeping the column count. -/
def locDF (d : DF) (gs : List String) : DF :=
  ⟨gs, d.ncols, gs.map (locRow d)⟩

/-- Lines 67-70 of CSV_IO.py: the common feature index, i.e. the distinct
labels of the first index that occur in every other index, sorted
ascending. -/
def commonGenes (sets : List DF) : List String :=
  match sets with
  | [] => []
  | s0 :: rest =>
      List.insertionSort (· ≤ ·)
        ((s0.index.dedup).filter (fun g => rest.all (fun s => decide (g ∈ s.index))))

/-- pd.concat(sets, axis=1) on identically indexed frames: row-wise
horizontal concatenation of the matrices. -/
def hcat : List (List (List ℚ)) → List (List ℚ)
  | [] => []
  | m :: ms => ms.foldl (fun acc n => List.zipWith (· ++ ·) acc n) m

/-- np.sum(m, axis=0) for a matrix of width w. -/
def colSums (w : Nat) (m : List (List ℚ)) : List ℚ :=
  (List.range w).map (fun j => (m.map (fun r => r.getD j 0)).sum)

/-- Line 77: np.divide(total_set, np.sum(total_set, axis=0)) * 20000. -/
def normalizeCols (w : Nat) (m : List (List ℚ)) : List (List ℚ) :=
  m.map (fun r => List.zipWith (fun x s => x / s * 20000) r (colSums w m))

/-- np.mean of a row. -/
def rowMean (r : List ℚ) : ℚ := r.sum / (r.length : ℚ)

/-- Population variance of a row (np.std squared, ddof = 0: denominator N). -/
def popVar (r : List ℚ) : ℚ :=
  ((r.map (fun x => (x - rowMean r) ^ 2)).sum) / (r.length : ℚ)

/-- Boolean-mask row selection, m[mask, :]. -/
def maskFilter (m : List (List ℚ)) (keep : List Bool) : List (List ℚ) :=
  ((m.zip keep).filter (fun p => p.2)).map Prod.fst

/-- np.percentile with the default linear interpolation between ranks:
sort, take position p/100 * (n-1), interpolate between the neighbouring
order statistics.  none on an empty array (numpy raises there). -/
def percentile (p : ℚ) (xs : List ℚ) : Option ℚ :=
  match xs with
  | [] => none
  | _ :: _ =>
      let s := List.insertionSort (· ≤ ·) xs
      let h : ℚ := p * ((xs.length : ℚ) - 1) / 100
      let k : ℕ := (⌊h⌋).toNat
      let a := s.getD k 0
      let b := s.getD (k + 1) a
      some (a + (h - (⌊h⌋ : ℚ)) * (b - a))

/-- Lines 79-80: keep the rows whose across-sample sum lies between the
1st and 99th percentile (inclusive) of the row-sum distribution. -/
def exprFilter (m : List (List ℚ)) : Option (List (List ℚ)) :=
  let expr := m.map List.sum
  match percentile 1 expr, percentile 99 expr with
  | some p1, some p99 =>
      some (maskFilter m (expr.map (fun e => decide (p1 ≤ e) && decide (e ≤ p99))))
  | _, _ => none

/-- Lines 84-87: drop the rows whose mean is not positive before the CV
step (mask mean_expr > 0). -/
def zeroMeanFilter (m : List (List ℚ)) : List (List ℚ) :=
  maskFilter m (m.map (fun r => decide (0 < rowMean r)))

/-- Line 89: coefficient of variation of a row, np.std / np.mean. -/
def cvOf (rsqrt : ℚ → ℚ) (r : List ℚ) : ℚ :=
  rsqrt (popVar r) / rowMean r

/-- Lines 89-90: keep the rows whose CV lies between the 1st and 99th
percentile (inclusive) of the CV distribution of the surviving rows. -/
def cvFilter (rsqrt : ℚ → ℚ) (m : List (List ℚ)) : Option (List (List ℚ)) :=
  let cv := m.map (cvOf rsqrt)
  match percentile 1 cv, percentile 99 cv with
  | some c1, some c99 =>
      some (maskFilter m (cv.map (fun c => decide (c1 ≤ c) && decide (c ≤ c99))))
  | _, _ => none

/-- total_set[:, a:b]: numpy column slicing with clamping. -/
def sliceCols (m : List (List ℚ)) (a b : Nat) : List (List ℚ) :=
  m.map (fun r => (r.take b).drop a)

/-- The only exception the source pipeline itself raises: numpy refuses to
take a percentile of an empty array. -/
inductive ScaleErr
  | emptyPercentile

/-- The inputs row-aligned to the sorted common gene index (line 74). -/
def alignedSets (sets : List DF) : List DF :=
  sets.map (fun s => locDF s (commonGenes sets))

/-- Line 76: the combined matrix, pd.concat of the aligned sets. -/
def combined (sets : List DF) : List (List ℚ) :=
  hcat ((alignedSets sets).map DF.mat)

/-- Total sample count of the combined matrix. -/
def totalWidth (sets : List DF) : Nat :=
  ((alignedSets sets).map DF.ncols).sum

/-- Lines 77-78: the combined matrix after library-size normalization to
20000 per column and elementwise log transform (abstract lg). -/
def logNormalized (lg : ℚ → ℚ) (sets : List DF) : List (List ℚ) :=
  (normalizeCols (totalWidth sets) (combined sets)).map (fun r => r.map lg)

/-- Lines 56-94 of CSV_IO.py, scale_sets: align all sets to the sorted
common gene index, record the split points, concatenate horizontally,
library-size normalize each column to 20000, log-transform (abstract lg),
filter rows by the expression percentiles, drop non-positive-mean rows,
filter by the CV percentiles, and re-split by the recorded split points. -/
def scale_sets (lg rsqrt : ℚ → ℚ) (sets : List DF) :
    Except ScaleErr (List (List (List ℚ))) :=
  match exprFilter (logNormalized lg sets) with
  | none => Except.error ScaleErr.emptyPercentile
  | some t3 =>
      match cvFilter rsqrt (zeroMeanFilter t3) with
      | none => Except.error ScaleErr.emptyPercentile
      | some t5 =>
          Except.ok ((List.range sets.length).map (fun i =>
            sliceCols t5
              (((0 :: (alignedSets sets).map DF.ncols).take (i + 1)).sum)
              (((0 :: (alignedSets sets).map DF.ncols).take (i + 2)).sum)))

/-- Lines 17-34, type2label_dict: enumerate the distinct cell types and
assign consecutive codes starting at 0.  The Python original enumerates
list(set(types)) in an unspecified order; the model fixes first-occurrence
order, on which no property below depends. -/
def type2label_dict (types : List String) : List (String × Nat) :=
  let all := types.dedup
  all.zip (List.range all.length)

/-- Dictionary lookup with string keys. -/
def lookupS (d : List (String × Nat)) (t : String) : Option Nat :=
  (d.find? (fun p => decide (p.1 = t))).map Prod.snd

/-- Dictionary lookup with integer keys. -/
def lookupN (d : List (Nat × String)) (c : Nat) : Option String :=
  (d.find? (fun p => decide (p.1 = c))).map Prod.snd

/-- Line 148 of CSV_IO.py: the inverted dictionary, swapping keys and values. -/
def label_to_type_dict (d : List (String × Nat)) : List (Nat × String) :=
  d.map (fun p => (p.2, p.1))

/-- Lines 36-53, convert_type2label: look every type up in the dictionary;
a missing key raises (modelled as none). -/
def convert_type2label : List String → List (String × Nat) → Option (List Nat)
  | [], _ => some []
  | t :: ts, d =>
      match lookupS d t, convert_type2label ts d with
      | some c, some cs => some (c :: cs)
      | _, _ => none

/-- A Python value held in a list cell during scale_sets: a DataFrame
before reassignment, a numpy array after. -/
inductive PyVal
  | df (d : DF)
  | arr (m : List (List ℚ))

/-- A store of Python list objects, addressed by object id. -/
abbrev Store := List (List PyVal)

/-- Read a list of DataFrames out of a list object's cells. -/
def dfsOf : List PyVal → Option (List DF)
  | [] => some []
  | PyVal.df d :: rest => (dfsOf rest).map (fun ds => d :: ds)
  | PyVal.arr _ :: _ => none

/-- State-passing embedding of the mutation scale_sets performs on its
argument: given the id of a list object holding DataFrames, it assigns the
row-aligned frames into the same list object (line 74), computes the
pipeline, assigns the final column slices into the same list object
(line 93) and returns that object's id (line 94).  The exceptional path is
not modelled here (see scale_sets). -/
def scale_setsRef (lg rsqrt : ℚ → ℚ) (σ : Store) (r : Nat) :
    Option (Nat × Store) :=
  match σ.get? r with
  | none => none
  | some lst =>
      match dfsOf lst with
      | none => none
      | some dfs =>
          let common := commonGenes dfs
          let aligned := dfs.map (fun s => locDF s common)
          let σ1 := σ.set r (aligned.map PyVal.df)
          match scale_sets lg rsqrt dfs with
          | Except.error _ => none
          | Except.ok outs => some (r, σ1.set r (outs.map PyVal.arr))

/-! Concrete inputs used by the closed evaluation theorems below. -/

/-- Two genes, one sample, feature sets "{A,B,C,D}" (two samples). -/
def dfS1 : DF := ⟨["A", "B", "C", "D"], 2, [[1, 2], [3, 4], [5, 6], [7, 8]]⟩

/-- Feature set "{B,C,D,E}", one sample. -/
def dfS2 : DF := ⟨["B", "C", "D", "E"], 1, [[1], [2], [3], [4]]⟩

/-- Two common genes with distinct row sums: the expression filter drops
both rows (with two values, both order statistics fall strictly outside
the interpolated [P1, P99] interval). -/
def dfP1 : DF := ⟨["A", "B"], 1, [[1], [3]]⟩

/-- Second matrix with the same two genes, distinct row sums. -/
def dfP2 : DF := ⟨["A", "B"], 1, [[1], [4]]⟩

/-- One gene, one sample, value 2. -/
def dfW1 : DF := ⟨["G"], 1, [[2]]⟩

/-- One gene, one sample, value 3. -/
def dfW2 : DF := ⟨["G"], 1, [[3]]⟩

/-- One gene, one all-zero sample: its column sum is zero. -/
def dfZ2 : DF := ⟨["G"], 1, [[0]]⟩

/-- Disjoint feature sets with dfD2: empty intersection. -/
def dfD1 : DF := ⟨["A"], 1, [[1]]⟩

/-- Disjoint feature sets with dfD1: empty intersection. -/
def dfD2 : DF := ⟨["B"], 1, [[1]]⟩

/-!
Float-extended scalars for the zero-column-sum scenario.  In the
reference, np.divide by a zero column sum yields NaN (0/0 is the only
zero-divisor case that can occur when the entries are non-negative, since
a zero-sum column is then all-zero); the NaN then propagates through the
log transform and the row sums, every IEEE comparison with it is false,
so the expression filter drops every row and line 90 raises on the empty
CV array.  An extended scalar is some q (a finite value) or none (NaN).
Arithmetic absorbs NaN, comparisons with NaN are false, np.sort orders
NaN last.  Infinities (x/0 with x nonzero) are outside this model; the
theorems that use it carry the non-negativity hypothesis under which that
case cannot arise.
-/

/-- Extended scalar: some q is a finite value, none is NaN. -/
abbrev EF := Option ℚ

/-- NaN-absorbing addition. -/
def efAdd : EF → EF → EF
  | some a, some b => some (a + b)
  | _, _ => none

/-- NaN-absorbing subtraction. -/
def efSub : EF → EF → EF
  | some a, some b => some (a - b)
  | _, _ => none

/-- NaN-absorbing multiplication (0 * NaN is NaN in IEEE as well). -/
def efMul : EF → EF → EF
  | some a, some b => some (a * b)
  | _, _ => none

/-- Division: NaN operands and zero divisors give NaN.  (IEEE yields
infinity for a nonzero numerator over zero; under the non-negativity
hypothesis of the theorems below every zero-divisor numerator is zero, so
that case never occurs.) -/
def efDiv : EF → EF → EF
  | some a, some b => if b = 0 then none else some (a / b)
  | _, _ => none

/-- np.sum of extended scalars: NaN if any term is NaN. -/
def efSum (l : List EF) : EF := l.foldr efAdd (some 0)

/-- IEEE comparison: any comparison with NaN is false. -/
def efLe : EF → EF → Bool
  | some a, some b => decide (a ≤ b)
  | _, _ => false

/-- IEEE strict comparison: false when either side is NaN. -/
def efLt : EF → EF → Bool
  | some a, some b => decide (a < b)
  | _, _ => false

/-- The order np.sort uses: finite values ascending, NaN last. -/
def efSortLeB : EF → EF → Bool
  | some a, some b => decide (a ≤ b)
  | some _, none => true
  | none, some _ => false
  | none, none => true

/-- np.percentile over extended scalars: sort with NaN last, interpolate
with NaN-absorbing arithmetic; none (numpy raises) only on an empty
array. -/
def efPercentile (p : ℚ) (xs : List EF) : Option EF :=
  match xs with
  | [] => none
  | _ :: _ =>
      let s := List.insertionSort (fun a b => efSortLeB a b = true) xs
      let h : ℚ := p * ((xs.length : ℚ) - 1) / 100
      let k : ℕ := (⌊h⌋).toNat
      let a := s.getD k (some 0)
      let b := s.getD (k + 1) a
      some (efAdd a (efMul (some (h - (⌊h⌋ : ℚ))) (efSub b a)))

/-- Boolean-mask row selection over extended matrices. -/
def efMaskFilter (m : List (List EF)) (keep : List Bool) : List (List EF) :=
  ((m.zip keep).filter (fun p => p.2)).map Prod.fst

/-- np.sum(m, axis=0) over extended scalars. -/
def efColSums (w : Nat) (m : List (List EF)) : List EF :=
  (List.range w).map (fun j => efSum (m.map (fun r => r.getD j (some 0))))

/-- Line 77 over extended scalars. -/
def efNormalizeCols (w : Nat) (m : List (List EF)) : List (List EF) :=
  m.map (fun r => List.zipWith (fun x s => efMul (efDiv x s) (some 20000)) r (efColSums w m))

/-- np.mean of an extended row (NaN on an empty row, as in numpy). -/
def efMean (r : List EF) : EF := efDiv (efSum r) (some (r.length : ℚ))

/-- Population variance of an extended row (np.std squared, ddof = 0). -/
def efVar (r : List EF) : EF :=
  efDiv (efSum (r.map (fun x => efMul (efSub x (efMean r)) (efSub x (efMean r)))))
    (some (r.length : ℚ))

/-- CV of an extended row; rsqrt abstracts sqrt on finite values, and the
square root of NaN is NaN. -/
def efCvOf (rsqrt : ℚ → ℚ) (r : List EF) : EF :=
  efDiv (Option.map rsqrt (efVar r)) (efMean r)

/-- Lines 79-80 over extended scalars. -/
def efExprFilter (m : List (List EF)) : Option (List (List EF)) :=
  let expr := m.map efSum
  match efPercentile 1 expr, efPercentile 99 expr with
  | some p1, some p99 =>
      some (efMaskFilter m (expr.map (fun e => efLe p1 e && efLe e p99)))
  | _, _ => none

/-- Lines 84-87 over extended scalars (mask mean > 0; false on NaN). -/
def efZeroMeanFilter (m : List (List EF)) : List (List EF) :=
  efMaskFilter m (m.map (fun r => efLt (some 0) (efMean r)))

/-- Lines 89-90 over extended scalars. -/
def efCvFilter (rsqrt : ℚ → ℚ) (m : List (List EF)) : Option (List (List EF)) :=
  let cv := m.map (efCvOf rsqrt)
  match efPercentile 1 cv, efPercentile 99 cv with
  | some c1, some c99 =>
      some (efMaskFilter m (cv.map (fun c => efLe c1 c && efLe c c99)))
  | _, _ => none

/-- The combined matrix lifted to extended scalars: input entries are
finite. -/
def efCombined (sets : List DF) : List (List EF) :=
  (combined sets).map (fun r => r.map some)

/-- Lines 77-78 over extended scalars. -/
def efLogNormalized (lg : ℚ → ℚ) (sets : List DF) : List (List EF) :=
  (efNormalizeCols (totalWidth sets) (efCombined sets)).map
    (fun r => r.map (Option.map lg))

/-- scale_sets in the float-extended model: the same staging as
scale_sets, over NaN-aware scalars. -/
def efScale_sets (lg rsqrt : ℚ → ℚ) (sets : List DF) :
    Except ScaleErr (List (List (List EF))) :=
  match efExprFilter (efLogNormalized lg sets) with
  | none => Except.error ScaleErr.emptyPercentile
  | some t3 =>
      match efCvFilter rsqrt (efZeroMeanFilter t3) with
      | none => Except.error ScaleErr.emptyPercentile
      | some t5 =>
          Except.ok ((List.range sets.length).map (fun i =>
            t5.map (fun r =>
              (r.take (((0 :: (alignedSets sets).map DF.ncols).take (i + 2)).sum)).drop
                (((0 :: (alignedSets sets).map DF.ncols).take (i + 1)).sum))))


/-! Basic lemmas. -/

theorem maskFilter_map (m : List (List ℚ)) (g : List ℚ → Bool) :
    maskFilter m (m.map g) = m.filter g := by
  induction m with
  | nil => rfl
  | cons a m ih =>
      simp only [maskFilter, List.map_cons, List.zip_cons_cons, List.filter_cons] at ih ⊢
      cases hg : g a
      · simpa [hg] using ih
      · simpa [hg] using ih

theorem mem_of_mem_maskFilter {m : List (List ℚ)} {ks : List Bool} {r : List ℚ}
    (h : r ∈ maskFilter m ks) : r ∈ m := by
  simp only [maskFilter, List.mem_map, List.mem_filter] at h
  obtain ⟨p, ⟨hp, _⟩, rfl⟩ := h
  exact (List.of_mem_zip hp).1

theorem mem_commonGenes {s0 : DF} {rest : List DF} {g : String} :
    g ∈ commonGenes (s0 :: rest) ↔ ∀ s ∈ s0 :: rest, g ∈ s.index := by
  simp only [commonGenes]
  rw [(List.perm_insertionSort _ _).mem_iff]
  simp only [List.mem_filter, List.mem_dedup, List.all_eq_true, decide_eq_true_eq]
  constructor
  · rintro ⟨h0, hr⟩ s hs
    rcases List.mem_cons.mp hs with rfl | hs2
    · exact h0
    · exact hr s hs2
  · intro h
    exact ⟨h s0 (List.mem_cons_self s0 rest),
      fun s hs => h s (List.mem_cons_of_mem _ hs)⟩

theorem commonGenes_sorted (sets : List DF) :
    List.Sorted (· ≤ ·) (commonGenes sets) := by
  cases sets with
  | nil => simp [commonGenes]
  | cons s0 rest => exact List.sorted_insertionSort _ _

theorem commonGenes_nodup (sets : List DF) : (commonGenes sets).Nodup := by
  cases sets with
  | nil => simp [commonGenes]
  | cons s0 rest =>
      exact ((List.perm_insertionSort _ _).nodup_iff).mpr
        (List.Nodup.filter _ (List.nodup_dedup s0.index))

theorem locRow_mem {d : DF} {g : String} (hg : g ∈ d.index)
    (hlen : d.mat.length = d.index.length) : locRow d g ∈ d.mat := by
  have hsome : ((d.index.zip d.mat).find? (fun p => decide (p.1 = g))).isSome := by
    rw [List.find?_isSome]
    obtain ⟨⟨k, hk⟩, hgk⟩ := List.mem_iff_get.mp hg
    have hkz : k < (d.index.zip d.mat).length := by
      rw [List.length_zip, hlen]
      simpa using hk
    refine ⟨(d.index.zip d.mat).get ⟨k, hkz⟩, List.get_mem _ _ _, ?_⟩
    simp only [List.get_eq_getElem, List.getElem_zip]
    simp only [List.get_eq_getElem] at hgk
    simp [hgk]
  obtain ⟨p, hp⟩ := Option.isSome_iff_exists.mp hsome
  have hpz := List.mem_of_find?_eq_some hp
  simp only [locRow, hp]
  exact (List.of_mem_zip hpz).2

theorem locRow_length {d : DF} {g : String} (hwf : d.WF) (hg : g ∈ d.index) :
    (locRow d g).length = d.ncols :=
  hwf.2 _ (locRow_mem hg hwf.1)

theorem alignedSets_ncols (sets : List DF) :
    (alignedSets sets).map DF.ncols = sets.map DF.ncols := by
  simp [alignedSets, locDF, List.map_map, Function.comp]

theorem alignedSets_rows {sets : List DF} (hwf : ∀ s ∈ sets, s.WF) :
    ∀ d ∈ alignedSets sets, d.mat.length = (commonGenes sets).length ∧
      ∀ r ∈ d.mat, r.length = d.ncols := by
  intro d hd
  simp only [alignedSets, List.mem_map] at hd
  obtain ⟨s, hs, rfl⟩ := hd
  refine ⟨by simp [locDF], ?_⟩
  intro r hr
  simp only [locDF, List.mem_map] at hr
  obtain ⟨g, hgc, rfl⟩ := hr
  have hgi : g ∈ s.index := by
    cases sets with
    | nil => cases hs
    | cons s0 rest => exact (mem_commonGenes.mp hgc) s hs
  exact (hwf s hs).2 _ (locRow_mem hgi (hwf s hs).1)

/-- C2: the common feature index of scale_sets is the intersection of all
input matrices' feature-identifier sets, sorted ascending and without
duplicates, and every input is row-aligned to exactly that index in that
order (keeping its original column count); in particular, for feature sets
{A,B,C,D} and {B,C,D,E} every aligned output retains exactly rows B, C, D
in that sorted order with the original column counts. -/
theorem commonGenes_spec :
    (∀ (s0 : DF) (rest : List DF) (g : String),
        g ∈ commonGenes (s0 :: rest) ↔ ∀ s ∈ s0 :: rest, g ∈ s.index) ∧
    (∀ sets : List DF,
        List.Sorted (· ≤ ·) (commonGenes sets) ∧ (commonGenes sets).Nodup) ∧
    (∀ (sets : List DF) (s : DF), s ∈ sets →
        (locDF s (commonGenes sets)).index = commonGenes sets ∧
        (locDF s (commonGenes sets)).ncols = s.ncols ∧
        (locDF s (commonGenes sets)).mat = (commonGenes sets).map (locRow s)) ∧
    (commonGenes [dfS1, dfS2] = ["B", "C", "D"] ∧
      (locDF dfS1 (commonGenes [dfS1, dfS2])).mat = [[3, 4], [5, 6], [7, 8]] ∧
      (locDF dfS2 (commonGenes [dfS1, dfS2])).mat = [[1], [2], [3]] ∧
      (locDF dfS1 (commonGenes [dfS1, dfS2])).ncols = 2 ∧
      (locDF dfS2 (commonGenes [dfS1, dfS2])).ncols = 1) := by
  have hc : commonGenes [dfS1, dfS2] = ["B", "C", "D"] := by
    simp +decide [commonGenes, dfS1, dfS2, List.insertionSort, List.orderedInsert,
      String.le_iff_toList_le]
  refine ⟨fun s0 rest g => mem_commonGenes,
    fun sets => ⟨commonGenes_sorted sets, commonGenes_nodup sets⟩,
    fun sets s _ => ⟨rfl, rfl, rfl⟩,
    hc, ?_, ?_, rfl, rfl⟩
  · rw [hc]
    simp +decide [locDF, locRow, dfS1, List.find?]
  · rw [hc]
    simp +decide [locDF, locRow, dfS2, List.find?]

/-- Witness for commonGenes_spec: the intersection characterization and the
column-count preservation evaluated on the concrete scenario matrices. -/
theorem commonGenes_spec_witness :
    (("B" ∈ commonGenes [dfS1, dfS2]) ↔ ∀ s ∈ [dfS1, dfS2], "B" ∈ s.index) ∧
    (locDF dfS1 (commonGenes [dfS1, dfS2])).ncols = dfS1.ncols :=
  ⟨commonGenes_spec.1 dfS1 [dfS2] "B",
   (commonGenes_spec.2.2.1 [dfS1, dfS2] dfS1 (by simp)).2.1⟩

/-! Label codec lemmas. -/

theorem zipRange_find (all : List String) (k : Nat) (hnd : all.Nodup) :
    ∀ s ∈ all, ∃ c,
      (all.zip (List.range' k all.length)).find? (fun p => decide (p.1 = s)) =
        some (s, c) ∧
      ((all.zip (List.range' k all.length)).map (fun p => (p.2, p.1))).find?
          (fun p => decide (p.1 = c)) = some (c, s) ∧
      k ≤ c ∧ c < k + all.length := by
  induction all generalizing k with
  | nil => intro s hs; cases hs
  | cons a rest ih =>
      intro s hs
      rw [List.length_cons, List.range'_succ, List.zip_cons_cons]
      rcases List.mem_cons.mp hs with rfl | hs2
      · refine ⟨k, ?_, ?_, Nat.le_refl k, ?_⟩
        · exact List.find?_cons_of_pos _ (by simp)
        · rw [List.map_cons]
          exact List.find?_cons_of_pos _ (by simp)
        · omega
      · have hne : a ≠ s := by
          rintro rfl
          exact (List.nodup_cons.mp hnd).1 hs2
        obtain ⟨c, hf, hg, hk1, hk2⟩ := ih (k + 1) (List.nodup_cons.mp hnd).2 s hs2
        refine ⟨c, ?_, ?_, Nat.le_of_succ_le hk1, ?_⟩
        · rw [List.find?_cons_of_neg _ (by simp [hne])]
          exact hf
        · rw [List.map_cons]
          have hkc : k ≠ c := by omega
          rw [List.find?_cons_of_neg _ (by simp [hkc])]
          exact hg
        · omega

theorem lookupS_type2label_some {ts : List String} {t : String} (ht : t ∈ ts) :
    ∃ c, lookupS (type2label_dict ts) t = some c ∧
      lookupN (label_to_type_dict (type2label_dict ts)) c = some t ∧
      c < (type2label_dict ts).length := by
  have hd : t ∈ ts.dedup := List.mem_dedup.mpr ht
  obtain ⟨c, hf, hg, _, hc⟩ :=
    zipRange_find ts.dedup 0 (List.nodup_dedup ts) t hd
  rw [← List.range_eq_range'] at hf hg
  refine ⟨c, ?_, ?_, ?_⟩
  · simp [lookupS, type2label_dict, hf]
  · simp [lookupN, label_to_type_dict, type2label_dict, hg]
  · simp only [type2label_dict, List.length_zip, List.length_range,
      Nat.min_self]
    simpa using hc

theorem lookupS_type2label_none (ts : List String) (t : String) :
    lookupS (type2label_dict ts) t = none ↔ t ∉ ts := by
  constructor
  · intro h ht
    obtain ⟨c, hc, _, _⟩ := lookupS_type2label_some ht
    rw [h] at hc
    cases hc
  · intro ht
    have : (type2label_dict ts).find? (fun p => decide (p.1 = t)) = none := by
      rw [List.find?_eq_none]
      intro p hp
      have hp1 : p.1 ∈ ts.dedup := by
        have := List.of_mem_zip (by simpa [type2label_dict] using hp)
        exact this.1
      simp only [decide_eq_true_eq]
      rintro rfl
      exact ht (List.mem_dedup.mp hp1)
    simp [lookupS, this]

theorem convert_none_iff (types : List String) (d : List (String × Nat)) :
    convert_type2label types d = none ↔ ∃ t ∈ types, lookupS d t = none := by
  induction types with
  | nil => simp [convert_type2label]
  | cons t ts ih =>
      simp only [convert_type2label]
      cases hl : lookupS d t with
      | none =>
          simp only []
          constructor
          · intro _
            exact ⟨t, List.mem_cons_self t ts, hl⟩
          · intro _
            trivial
      | some c =>
          cases hrec : convert_type2label ts d with
          | none =>
              constructor
              · intro _
                obtain ⟨x, hx, hxn⟩ := ih.mp hrec
                exact ⟨x, List.mem_cons_of_mem _ hx, hxn⟩
              · intro _
                rfl
          | some cs =>
              constructor
              · intro h
                cases h
              · rintro ⟨x, hx, hxn⟩
                rcases List.mem_cons.mp hx with rfl | hx2
                · rw [hl] at hxn
                  cases hxn
                · exact absurd (ih.mpr ⟨x, hx2, hxn⟩) (by simp [hrec])

theorem convert_some (types : List String) (d : List (String × Nat))
    (h : ∀ t ∈ types, (lookupS d t).isSome) :
    convert_type2label types d =
      some (types.map (fun t => (lookupS d t).getD 0)) := by
  induction types with
  | nil => rfl
  | cons t ts ih =>
      obtain ⟨c, hc⟩ :=
        Option.isSome_iff_exists.mp (h t (List.mem_cons_self t ts))
      have hrec := ih (fun x hx => h x (List.mem_cons_of_mem _ hx))
      simp [convert_type2label, hc, hrec]

/-- C8: convert_type2label returns the sequence of codes obtained by
looking each label up in the dictionary, and fails (the KeyError of the
source, modelled as none) exactly when some label in the sequence was
never seen when the dictionary was built. -/
theorem convert_type2label_spec (types seen : List String) :
    (convert_type2label types (type2label_dict seen) = none ↔
      ∃ t ∈ types, t ∉ seen) ∧
    ((∀ t ∈ types, t ∈ seen) →
      convert_type2label types (type2label_dict seen) =
        some (types.map (fun t => (lookupS (type2label_dict seen) t).getD 0))) := by
  constructor
  · rw [convert_none_iff]
    constructor
    · rintro ⟨t, ht, hn⟩
      exact ⟨t, ht, (lookupS_type2label_none seen t).mp hn⟩
    · rintro ⟨t, ht, hn⟩
      exact ⟨t, ht, (lookupS_type2label_none seen t).mpr hn⟩
  · intro hall
    refine convert_some _ _ (fun t ht => ?_)
    obtain ⟨c, hc, _, _⟩ := lookupS_type2label_some (hall t ht)
    simp [hc]

/-- Witness for convert_type2label_spec: with training labels b, a the
lookup of a, b succeeds while the lookup of a, z fails with the
unknown-label error. -/
theorem convert_type2label_spec_witness :
    convert_type2label ["a", "z"] (type2label_dict ["b", "a"]) = none ∧
    convert_type2label ["a", "b"] (type2label_dict ["b", "a"]) =
      some (["a", "b"].map (fun t => (lookupS (type2label_dict ["b", "a"]) t).getD 0)) :=
  ⟨(convert_type2label_spec ["a", "z"] ["b", "a"]).1.mpr
      ⟨"z", by simp, by simp⟩,
   (convert_type2label_spec ["a", "b"] ["b", "a"]).2 (by simp)⟩

/-- C9: the codec built by type2label_dict and its inversion are exact
inverses on every label seen during construction, every assigned code is
below the number of entries, and the number of entries equals the number
of distinct training labels. -/
theorem type2label_dict_spec (ts : List String) :
    (∀ s ∈ ts, ∃ c, lookupS (type2label_dict ts) s = some c ∧
        lookupN (label_to_type_dict (type2label_dict ts)) c = some s ∧
        c < (type2label_dict ts).length) ∧
    (∀ p ∈ type2label_dict ts, p.2 < (type2label_dict ts).length) ∧
    (type2label_dict ts).length = ts.toFinset.card := by
  have hlen : (type2label_dict ts).length = ts.dedup.length := by
    simp [type2label_dict]
  refine ⟨fun s hs => lookupS_type2label_some hs, ?_, ?_⟩
  · intro p hp
    have hz := List.of_mem_zip (by simpa [type2label_dict] using hp)
    have := List.mem_range.mp hz.2
    omega
  · rw [hlen, List.card_toFinset]

/-- Witness for type2label_dict_spec: round trip of the label a through
the codec of b, a, b, whose class count is 2. -/
theorem type2label_dict_spec_witness :
    (∃ c, lookupS (type2label_dict ["b", "a", "b"]) "a" = some c ∧
        lookupN (label_to_type_dict (type2label_dict ["b", "a", "b"])) c = some "a" ∧
        c < (type2label_dict ["b", "a", "b"]).length) ∧
    (type2label_dict ["b", "a", "b"]).length = (["b", "a", "b"] : List String).toFinset.card :=
  ⟨(type2label_dict_spec ["b", "a", "b"]).1 "a" (by simp),
   (type2label_dict_spec ["b", "a", "b"]).2.2⟩

/-! Shape lemmas for the combined matrix and the pipeline stages. -/

theorem mem_of_zipWith {f : List ℚ → List ℚ → List ℚ}
    {l l' : List (List ℚ)} {r : List ℚ} (h : r ∈ List.zipWith f l l') :
    ∃ x ∈ l, ∃ y ∈ l', r = f x y := by
  induction l generalizing l' with
  | nil => cases h
  | cons a l ih =>
      cases l' with
      | nil => cases h
      | cons b l' =>
          rcases List.mem_cons.mp h with rfl | h2
          · exact ⟨a, List.mem_cons_self _ _, b, List.mem_cons_self _ _, rfl⟩
          · obtain ⟨x, hx, y, hy, hr⟩ := ih h2
            exact ⟨x, List.mem_cons_of_mem _ hx, y, List.mem_cons_of_mem _ hy, hr⟩

theorem foldl_zipWith_length (ms : List (List (List ℚ))) (acc : List (List ℚ))
    (R : Nat) (hacc : acc.length = R) (hms : ∀ m ∈ ms, m.length = R) :
    (ms.foldl (fun a n => List.zipWith (· ++ ·) a n) acc).length = R := by
  induction ms generalizing acc with
  | nil => exact hacc
  | cons m ms ih =>
      refine ih _ ?_ (fun m2 hm2 => hms m2 (List.mem_cons_of_mem _ hm2))
      rw [List.length_zipWith, hacc, hms m (List.mem_cons_self _ _)]
      simp

theorem foldl_zipWith_width (ms : List (List (List ℚ))) (ws : List Nat)
    (acc : List (List ℚ)) (W : Nat)
    (hacc : ∀ r ∈ acc, r.length = W)
    (hms : List.Forall₂ (fun m w => ∀ r ∈ m, r.length = w) ms ws) :
    ∀ r ∈ ms.foldl (fun a n => List.zipWith (· ++ ·) a n) acc,
      r.length = W + ws.sum := by
  induction hms generalizing acc W with
  | nil =>
      intro r hr
      simpa using hacc r hr
  | @cons m w ms ws hmw _ ih =>
      intro r hr
      rw [List.sum_cons, ← Nat.add_assoc]
      refine ih _ _ ?_ r hr
      intro x hx
      obtain ⟨u, hu, v, hv, rfl⟩ := mem_of_zipWith hx
      rw [List.length_append, hacc u hu, hmw v hv]

theorem aligned_mat_length (sets : List DF) :
    ∀ d ∈ alignedSets sets, d.mat.length = (commonGenes sets).length := by
  intro d hd
  simp only [alignedSets, List.mem_map] at hd
  obtain ⟨s, _, rfl⟩ := hd
  simp [locDF]

theorem combined_length {sets : List DF} (hne : sets ≠ []) :
    (combined sets).length = (commonGenes sets).length := by
  cases sets with
  | nil => exact absurd rfl hne
  | cons s rest =>
      simp only [combined, alignedSets, List.map_cons, hcat]
      refine foldl_zipWith_length _ _ _ (by simp [locDF]) ?_
      intro m hm
      simp only [List.map_map, List.mem_map] at hm
      obtain ⟨d, _, rfl⟩ := hm
      simp [locDF, Function.comp]

theorem combined_row_length {sets : List DF} (hwf : ∀ s ∈ sets, s.WF) :
    ∀ r ∈ combined sets, r.length = totalWidth sets := by
  cases sets with
  | nil =>
      intro r hr
      simp [combined, alignedSets, hcat] at hr
  | cons s rest =>
      have hal := alignedSets_rows hwf
      intro r hr
      simp only [combined, alignedSets, List.map_cons, hcat] at hr
      rw [List.foldl_map] at hr
      have key := foldl_zipWith_width
        ((rest.map (fun s2 => locDF s2 (commonGenes (s :: rest)))).map DF.mat)
        ((rest.map (fun s2 => locDF s2 (commonGenes (s :: rest)))).map DF.ncols)
        (locDF s (commonGenes (s :: rest))).mat
        (locDF s (commonGenes (s :: rest))).ncols
        ?_ ?_ r ?_
      · rw [key]
        simp only [totalWidth, alignedSets, List.map_cons, List.sum_cons]
      · intro x hx
        exact (hal _ (by simp [alignedSets])).2 x hx
      · rw [List.forall₂_map_left_iff, List.forall₂_map_right_iff]
        rw [List.forall₂_same]
        intro d hd
        refine (hal d ?_).2
        simp only [alignedSets, List.map_cons]
        exact List.mem_cons_of_mem _ hd
      · rw [List.foldl_map]
        exact hr

theorem colSums_length (w : Nat) (m : List (List ℚ)) :
    (colSums w m).length = w := by
  simp [colSums]

theorem logNormalized_row_length {lg : ℚ → ℚ} {sets : List DF}
    (hwf : ∀ s ∈ sets, s.WF) :
    ∀ r ∈ logNormalized lg sets, r.length = totalWidth sets := by
  intro r hr
  simp only [logNormalized, normalizeCols, List.map_map, List.mem_map,
    Function.comp] at hr
  obtain ⟨r0, hr0, rfl⟩ := hr
  rw [List.length_map, List.length_zipWith, colSums_length,
    combined_row_length hwf r0 hr0]
  simp

theorem logNormalized_length {lg : ℚ → ℚ} {sets : List DF} (hne : sets ≠ []) :
    (logNormalized lg sets).length = (commonGenes sets).length := by
  simp only [logNormalized, normalizeCols, List.length_map]
  exact combined_length hne

theorem exprFilter_some_sub {m t : List (List ℚ)} (h : exprFilter m = some t) :
    ∀ r ∈ t, r ∈ m := by
  simp only [exprFilter] at h
  cases h1 : percentile 1 (m.map List.sum) with
  | none => rw [h1] at h; cases h
  | some p1 =>
      cases h99 : percentile 99 (m.map List.sum) with
      | none => rw [h1, h99] at h; cases h
      | some p99 =>
          rw [h1, h99] at h
          injection h with h
          subst h
          exact fun r hr => mem_of_mem_maskFilter hr

theorem cvFilter_some_sub {rsqrt : ℚ → ℚ} {m t : List (List ℚ)}
    (h : cvFilter rsqrt m = some t) : ∀ r ∈ t, r ∈ m := by
  simp only [cvFilter] at h
  cases h1 : percentile 1 (m.map (cvOf rsqrt)) with
  | none => rw [h1] at h; cases h
  | some c1 =>
      cases h99 : percentile 99 (m.map (cvOf rsqrt)) with
      | none => rw [h1, h99] at h; cases h
      | some c99 =>
          rw [h1, h99] at h
          injection h with h
          subst h
          exact fun r hr => mem_of_mem_maskFilter hr

theorem zeroMeanFilter_sub (m : List (List ℚ)) :
    ∀ r ∈ zeroMeanFilter m, r ∈ m :=
  fun _ hr => mem_of_mem_maskFilter hr

theorem sum_take_le (cs : List Nat) (k : Nat) : (cs.take k).sum ≤ cs.sum := by
  conv_rhs => rw [← List.take_append_drop k cs]
  rw [List.sum_append]
  exact Nat.le_add_right _ _

/-- C1 (amended): whenever scale_sets returns at all on a sequence of two
or more well-formed inputs, the output list has the same length as the
input, every output is a column slice of one shared filtered matrix (hence
all outputs have identical row count and identical row ordering), and
output i has exactly input i's column count. -/
theorem scale_sets_shape_of_ok (lg rsqrt : ℚ → ℚ) (sets : List DF)
    (outs : List (List (List ℚ)))
    (hwf : ∀ s ∈ sets, s.WF) (_hN : 2 ≤ sets.length)
    (hok : scale_sets lg rsqrt sets = Except.ok outs) :
    outs.length = sets.length ∧
    ∃ T : List (List ℚ),
      (∀ i, i < sets.length →
          outs.getD i [] = T.map (fun r =>
            (r.take (((sets.map DF.ncols).take (i + 1)).sum)).drop
              (((sets.map DF.ncols).take i).sum))) ∧
      (∀ i, i < sets.length → (outs.getD i []).length = T.length) ∧
      (∀ i, i < sets.length → ∀ r ∈ outs.getD i [],
          r.length = (sets.getD i ⟨[], 0, []⟩).ncols) := by
  unfold scale_sets at hok
  split at hok
  next h3 => exact absurd hok (by simp)
  next t3 h3 =>
    split at hok
    next h5 => exact absurd hok (by simp)
    next t5 h5 =>
      injection hok with hout
      subst hout
      have hacs : (alignedSets sets).map DF.ncols = sets.map DF.ncols :=
        alignedSets_ncols sets
      have ht5w : ∀ x ∈ t5, x.length = (sets.map DF.ncols).sum := by
        intro x hx
        have h1 := cvFilter_some_sub h5 x hx
        have h2 := zeroMeanFilter_sub t3 x h1
        have h3m := exprFilter_some_sub h3 x h2
        rw [logNormalized_row_length hwf x h3m, totalWidth, hacs]
      refine ⟨by simp, t5, ?_, ?_, ?_⟩
      · intro i hi
        rw [List.getD_eq_getElem _ _ (by simpa using hi), List.getElem_map,
          List.getElem_range, hacs, List.take_succ_cons, List.take_succ_cons,
          List.sum_cons, List.sum_cons]
        simp only [Nat.zero_add]
        rfl
      · intro i hi
        rw [List.getD_eq_getElem _ _ (by simpa using hi), List.getElem_map,
          List.getElem_range]
        simp [sliceCols]
      · intro i hi r hr
        rw [List.getD_eq_getElem _ _ (by simpa using hi), List.getElem_map,
          List.getElem_range, hacs, List.take_succ_cons, List.take_succ_cons,
          List.sum_cons, List.sum_cons] at hr
        simp only [Nat.zero_add, sliceCols, List.mem_map] at hr
        obtain ⟨x, hx, rfl⟩ := hr
        have hxw := ht5w x hx
        have hcs : i < (sets.map DF.ncols).length := by simpa using hi
        have hsum := List.sum_take_succ (sets.map DF.ncols) i hcs
        have hle := sum_take_le (sets.map DF.ncols) (i + 1)
        have hgetm : (sets.map DF.ncols)[i] = (sets.getD i ⟨[], 0, []⟩).ncols := by
          rw [List.getElem_map, List.getD_eq_getElem _ _ hi]
        rw [List.length_drop, List.length_take, hxw]
        rw [hgetm] at hsum
        omega

/-- C1 counterexample: dfP1 and dfP2 share the two features A and B, so
the common feature index is non-empty, yet scale_sets does not return
re-split matrices: its expression filter drops both rows (two distinct
row sums both fall strictly outside the interpolated [P1, P99] interval),
and the CV percentile is then taken of an empty array, which raises. -/
theorem scale_sets_shape_claim_cex :
    commonGenes [dfP1, dfP2] = ["A", "B"] ∧
    scale_sets id id [dfP1, dfP2] = Except.error ScaleErr.emptyPercentile := by
  constructor
  · simp +decide [commonGenes, dfP1, dfP2, List.insertionSort,
      List.orderedInsert, String.le_iff_toList_le]
  · norm_num +decide [scale_sets, commonGenes, dfP1, dfP2, alignedSets, locDF,
      locRow, combined, totalWidth, hcat, colSums, normalizeCols,
      logNormalized, exprFilter, percentile, maskFilter, zeroMeanFilter,
      rowMean, popVar, cvOf, cvFilter, sliceCols, List.insertionSort,
      List.orderedInsert, String.le_iff_toList_le, List.find?,
      List.range_succ, List.replicate]

/-- Witness for scale_sets_shape_of_ok: a concrete succeeding run on two
single-gene single-sample inputs. -/
theorem scale_sets_shape_of_ok_witness :
    ([[[1]], [[1]]] : List (List (List ℚ))).length = ([dfW1, dfW2] : List DF).length ∧
    ∃ T : List (List ℚ),
      (∀ i, i < ([dfW1, dfW2] : List DF).length →
          ([[[1]], [[1]]] : List (List (List ℚ))).getD i [] = T.map (fun r =>
            (r.take (((([dfW1, dfW2] : List DF).map DF.ncols).take (i + 1)).sum)).drop
              (((([dfW1, dfW2] : List DF).map DF.ncols).take i).sum))) ∧
      (∀ i, i < ([dfW1, dfW2] : List DF).length →
          (([[[1]], [[1]]] : List (List (List ℚ))).getD i []).length = T.length) ∧
      (∀ i, i < ([dfW1, dfW2] : List DF).length →
          ∀ r ∈ ([[[1]], [[1]]] : List (List (List ℚ))).getD i [],
            r.length = (([dfW1, dfW2] : List DF).getD i ⟨[], 0, []⟩).ncols) :=
  scale_sets_shape_of_ok (fun _ => 1) id [dfW1, dfW2] [[[1]], [[1]]]
    (by
      intro s hs
      rcases List.mem_cons.mp hs with rfl | hs2
      · exact ⟨rfl, by simp [dfW1]⟩
      · rcases List.mem_cons.mp hs2 with rfl | hs3
        · exact ⟨rfl, by simp [dfW2]⟩
        · cases hs3)
    (by norm_num)
    (by norm_num [scale_sets, commonGenes, dfW1, dfW2, alignedSets, locDF,
      locRow, combined, totalWidth, hcat, colSums, normalizeCols,
      logNormalized, exprFilter, percentile, maskFilter, zeroMeanFilter,
      rowMean, popVar, cvOf, cvFilter, sliceCols, List.insertionSort,
      List.orderedInsert, String.le_iff_toList_le, List.find?,
      List.range_succ, List.replicate])

/-! Library-size normalization: every column of the normalized matrix sums
to the target magnitude. -/

theorem getD_zipWith_div {r S : List ℚ} {j : Nat} (hr : j < r.length)
    (hS : j < S.length) :
    (List.zipWith (fun x s => x / s * 20000) r S).getD j 0 =
      (r.getD j 0) / (S.getD j 0) * 20000 := by
  rw [List.getD_eq_getElem _ _ (by rw [List.length_zipWith]; omega),
    List.getElem_zipWith, List.getD_eq_getElem _ _ hr,
    List.getD_eq_getElem _ _ hS]

theorem normalizeCols_target (w : Nat) (m : List (List ℚ))
    (hw : ∀ r ∈ m, r.length = w)
    (hnz : ∀ s ∈ colSums w m, s ≠ 0) :
    colSums w (normalizeCols w m) = List.replicate w 20000 := by
  rw [List.eq_replicate_iff]
  refine ⟨colSums_length _ _, ?_⟩
  intro b hb
  simp only [colSums, List.mem_map, List.mem_range] at hb
  obtain ⟨j, hj, rfl⟩ := hb
  have hS : j < (colSums w m).length := by rw [colSums_length]; exact hj
  have hs_mem : (colSums w m).getD j 0 ∈ colSums w m := by
    rw [List.getD_eq_getElem _ _ hS]
    exact List.getElem_mem _
  have hs_ne := hnz _ hs_mem
  have hmap : (normalizeCols w m).map (fun r => r.getD j 0) =
      m.map (fun r => (r.getD j 0) * (20000 / (colSums w m).getD j 0)) := by
    simp only [normalizeCols, List.map_map]
    refine List.map_congr_left ?_
    intro r hr
    simp only [Function.comp]
    rw [getD_zipWith_div (by rw [hw r hr]; exact hj) hS,
      div_mul_eq_mul_div, mul_div_assoc]
  rw [hmap, List.sum_map_mul_right]
  have hsval : (colSums w m).getD j 0 = (m.map (fun r => r.getD j 0)).sum := by
    simp only [colSums]
    rw [List.getD_eq_getElem _ _ (by simpa using hj), List.getElem_map,
      List.getElem_range]
  rw [← hsval, mul_comm, div_mul_cancel₀ _ hs_ne]

/-- C3: in scale_sets, provided no column of the aligned combined matrix
sums to zero, every column of the pre-log combined matrix (the matrix
right after library-size normalization, before the log transform) sums
exactly to the target magnitude 20000, independently of all other
columns. -/
theorem scale_sets_colsum_target (sets : List DF) (hwf : ∀ s ∈ sets, s.WF)
    (hnz : ∀ s ∈ colSums (totalWidth sets) (combined sets), s ≠ 0) :
    colSums (totalWidth sets) (normalizeCols (totalWidth sets) (combined sets)) =
      List.replicate (totalWidth sets) 20000 :=
  normalizeCols_target _ _ (combined_row_length hwf) hnz

/-- Witness for scale_sets_colsum_target: two single-gene inputs with
column sums 2 and 3; after normalization both columns sum to 20000. -/
theorem scale_sets_colsum_target_witness :
    colSums (totalWidth [dfW1, dfW2])
        (normalizeCols (totalWidth [dfW1, dfW2]) (combined [dfW1, dfW2])) =
      List.replicate (totalWidth [dfW1, dfW2]) 20000 :=
  scale_sets_colsum_target [dfW1, dfW2]
    (by
      intro s hs
      rcases List.mem_cons.mp hs with rfl | hs2
      · exact ⟨rfl, by simp [dfW1]⟩
      · rcases List.mem_cons.mp hs2 with rfl | hs3
        · exact ⟨rfl, by simp [dfW2]⟩
        · cases hs3)
    (by
      intro s hs
      norm_num +decide [colSums, totalWidth, combined, alignedSets, locDF,
        locRow, commonGenes, dfW1, dfW2, hcat, List.insertionSort,
        List.orderedInsert, List.find?, List.range_succ] at hs
      rcases hs with rfl | rfl <;> norm_num)

/-- C4: the expression filter of scale_sets retains exactly the rows of
its input matrix whose across-sample sum lies within the inclusive
interval from the 1st to the 99th percentile (linear interpolation) of
the row-sum distribution of the full pre-filter matrix, and excludes
exactly the rows whose sum lies outside it. -/
theorem exprFilter_eq_filter (m : List (List ℚ)) (p1 p99 : ℚ)
    (h1 : percentile 1 (m.map List.sum) = some p1)
    (h99 : percentile 99 (m.map List.sum) = some p99) :
    exprFilter m =
      some (m.filter (fun r => decide (p1 ≤ r.sum) && decide (r.sum ≤ p99))) := by
  simp only [exprFilter, h1, h99]
  have hm : (m.map List.sum).map (fun e => decide (p1 ≤ e) && decide (e ≤ p99)) =
      m.map (fun r => decide (p1 ≤ r.sum) && decide (r.sum ≤ p99)) := by
    rw [List.map_map]
    rfl
  rw [hm, maskFilter_map]

/-- Witness for exprFilter_eq_filter: three one-sample rows with sums
1, 2, 3; P1 = 51/50 and P99 = 149/50, so exactly the middle row
survives. -/
theorem exprFilter_eq_filter_witness :
    exprFilter ([[1], [2], [3]] : List (List ℚ)) =
      some (([[1], [2], [3]] : List (List ℚ)).filter
        (fun r => decide ((51 : ℚ)/50 ≤ r.sum) && decide (r.sum ≤ (149 : ℚ)/50))) :=
  exprFilter_eq_filter _ _ _
    (by norm_num [percentile, List.insertionSort, List.orderedInsert])
    (by norm_num [percentile, List.insertionSort, List.orderedInsert])

/-- C5: in the coefficient-of-variation stage of scale_sets, the rows of
the expression-filtered matrix whose mean is not positive (in particular
every row of mean exactly zero) are dropped first and do not participate
in the CV computation; each surviving row has nonzero mean, so the CV
division is never by zero; the CV multiplied back by the row mean is the
row standard deviation, whose variance uses the population convention
(denominator N, the row length). -/
theorem zeroMeanFilter_cv_safe (rsqrt : ℚ → ℚ) (m : List (List ℚ)) :
    zeroMeanFilter m = m.filter (fun r => decide (0 < rowMean r)) ∧
    (∀ r ∈ m, rowMean r = 0 → r ∉ zeroMeanFilter m) ∧
    (∀ r ∈ zeroMeanFilter m, rowMean r ≠ 0) ∧
    ((zeroMeanFilter m).map (cvOf rsqrt) =
      (m.filter (fun r => decide (0 < rowMean r))).map (cvOf rsqrt)) ∧
    (∀ r ∈ zeroMeanFilter m,
      cvOf rsqrt r * rowMean r = rsqrt (popVar r) ∧
      popVar r * (r.length : ℚ) = (r.map (fun x => (x - rowMean r) ^ 2)).sum) := by
  have hfil : zeroMeanFilter m = m.filter (fun r => decide (0 < rowMean r)) :=
    maskFilter_map m _
  have hmem : ∀ r ∈ zeroMeanFilter m, 0 < rowMean r := by
    intro r hr
    rw [hfil] at hr
    have := (List.mem_filter.mp hr).2
    simpa using this
  refine ⟨hfil, ?_, ?_, by rw [hfil], ?_⟩
  · intro r _ h0 hmemf
    have := hmem r hmemf
    rw [h0] at this
    exact lt_irrefl 0 this
  · intro r hr
    exact ne_of_gt (hmem r hr)
  · intro r hr
    have hmean := ne_of_gt (hmem r hr)
    constructor
    · exact div_mul_cancel₀ _ hmean
    · have hlen : r ≠ [] := by
        rintro rfl
        simp [rowMean] at hmean
      have hlq : (r.length : ℚ) ≠ 0 := by
        rw [Nat.cast_ne_zero]
        exact (List.length_pos.mpr hlen).ne'
      exact div_mul_cancel₀ _ hlq

/-- Witness for zeroMeanFilter_cv_safe: the zero-mean row 0, 0 is dropped
before the CV step while the positive-mean row 1, 3 survives. -/
theorem zeroMeanFilter_cv_safe_witness :
    zeroMeanFilter [[1, 3], [0, 0]] =
      ([[1, 3], [0, 0]] : List (List ℚ)).filter (fun r => decide (0 < rowMean r)) ∧
    (([0, 0] : List ℚ) ∉ zeroMeanFilter [[1, 3], [0, 0]]) :=
  ⟨(zeroMeanFilter_cv_safe id [[1, 3], [0, 0]]).1,
   (zeroMeanFilter_cv_safe id [[1, 3], [0, 0]]).2.1 [0, 0] (by simp)
     (by norm_num [rowMean])⟩


theorem foldl_zipWith_nil (ms : List (List (List ℚ))) :
    ms.foldl (fun a n => List.zipWith (· ++ ·) a n) [] = [] := by
  induction ms with
  | nil => rfl
  | cons m ms ih => simpa using ih

/-- C7 (amended): scale_sets performs no emptiness check on the common
feature index: with an empty intersection every input is silently aligned
to a zero-row matrix, and the run fails only downstream, when the first
percentile is taken of the empty row-sum array. -/
theorem scale_sets_empty_common (lg rsqrt : ℚ → ℚ) (s0 : DF) (rest : List DF)
    (hc : commonGenes (s0 :: rest) = []) :
    (∀ d ∈ alignedSets (s0 :: rest), d.mat = []) ∧
    scale_sets lg rsqrt (s0 :: rest) = Except.error ScaleErr.emptyPercentile := by
  have hmats : ∀ d ∈ alignedSets (s0 :: rest), d.mat = [] := by
    intro d hd
    simp only [alignedSets, List.mem_map] at hd
    obtain ⟨s, _, rfl⟩ := hd
    simp [locDF, hc]
  refine ⟨hmats, ?_⟩
  have hcomb : combined (s0 :: rest) = [] := by
    simp only [combined, alignedSets, List.map_cons, hcat]
    have h0 : (locDF s0 (commonGenes (s0 :: rest))).mat = [] := by
      simp [locDF, hc]
    rw [h0]
    exact foldl_zipWith_nil _
  have hlogn : logNormalized lg (s0 :: rest) = [] := by
    simp [logNormalized, normalizeCols, hcomb]
  unfold scale_sets
  rw [hlogn]
  rfl

/-- C7 counterexample: dfD1 and dfD2 have disjoint feature sets, the
common feature index is empty, and scale_sets does not surface a
missing-common-features error: it aligns dfD1 to a zero-row matrix and
then fails with the generic empty-array percentile error. -/
theorem scale_sets_missing_common_cex :
    commonGenes [dfD1, dfD2] = [] ∧
    (locDF dfD1 (commonGenes [dfD1, dfD2])).mat = [] ∧
    scale_sets id id [dfD1, dfD2] = Except.error ScaleErr.emptyPercentile := by
  have hc : commonGenes [dfD1, dfD2] = [] := by
    simp +decide [commonGenes, dfD1, dfD2, List.insertionSort,
      List.orderedInsert, String.le_iff_toList_le]
  refine ⟨hc, by simp [locDF, hc], ?_⟩
  norm_num +decide [scale_sets, commonGenes, dfD1, dfD2, alignedSets, locDF,
    locRow, combined, totalWidth, hcat, colSums, normalizeCols,
    logNormalized, exprFilter, percentile, maskFilter, zeroMeanFilter,
    rowMean, popVar, cvOf, cvFilter, sliceCols, List.insertionSort,
    List.orderedInsert, String.le_iff_toList_le, List.find?,
    List.range_succ, List.replicate]

/-- Witness for scale_sets_empty_common: applied to the disjoint pair in
the opposite order. -/
theorem scale_sets_empty_common_witness :
    (∀ d ∈ alignedSets [dfD2, dfD1], d.mat = []) ∧
    scale_sets (fun _ => 1) id [dfD2, dfD1] = Except.error ScaleErr.emptyPercentile :=
  scale_sets_empty_common (fun _ => 1) id dfD2 [dfD1]
    (by simp +decide [commonGenes, dfD1, dfD2, List.insertionSort,
      List.orderedInsert, String.le_iff_toList_le])

theorem dfsOf_map_df (dfs : List DF) : dfsOf (dfs.map PyVal.df) = some dfs := by
  induction dfs with
  | nil => rfl
  | cons d ds ih => simp [dfsOf, ih]

/-- C10: scale_sets mutates its argument in place: in the store embedding
of Python list objects, a successful call reads the list object with id r,
overwrites its cells (first with the row-aligned frames, then with the
final column slices) and returns the id of the very same list object;
afterwards the list at r holds exactly the output arrays, so none of the
caller's original DataFrames is reachable through that list any more. -/
theorem scale_setsRef_inplace (lg rsqrt : ℚ → ℚ) (σ : Store) (r : Nat)
    (dfs : List DF) (outs : List (List (List ℚ)))
    (hr : σ.get? r = some (dfs.map PyVal.df))
    (hok : scale_sets lg rsqrt dfs = Except.ok outs) :
    scale_setsRef lg rsqrt σ r = some (r, σ.set r (outs.map PyVal.arr)) ∧
    (σ.set r (outs.map PyVal.arr)).get? r = some (outs.map PyVal.arr) ∧
    ∀ d : DF, PyVal.df d ∉ outs.map PyVal.arr := by
  obtain ⟨hlt, -⟩ := List.get?_eq_some.mp hr
  refine ⟨?_, ?_, ?_⟩
  · simp only [scale_setsRef, hr, dfsOf_map_df, hok, List.set_set]
  · rw [List.get?_set_eq, List.get?_eq_get hlt]
    rfl
  · intro d hd
    simp only [List.mem_map] at hd
    obtain ⟨x, -, hx⟩ := hd
    exact PyVal.noConfusion hx

/-- Witness for scale_setsRef_inplace: the store holds one list object
with the two single-gene DataFrames; after the call the same object id 0
is returned and its cells hold the two output arrays. -/
theorem scale_setsRef_inplace_witness :
    scale_setsRef (fun _ => 1) id [[PyVal.df dfW1, PyVal.df dfW2]] 0 =
      some (0, ([[PyVal.df dfW1, PyVal.df dfW2]] : Store).set 0
        (([[[1]], [[1]]] : List (List (List ℚ))).map PyVal.arr)) ∧
    (([[PyVal.df dfW1, PyVal.df dfW2]] : Store).set 0
        (([[[1]], [[1]]] : List (List (List ℚ))).map PyVal.arr)).get? 0 =
      some (([[[1]], [[1]]] : List (List (List ℚ))).map PyVal.arr) ∧
    ∀ d : DF, PyVal.df d ∉ ([[[1]], [[1]]] : List (List (List ℚ))).map PyVal.arr :=
  scale_setsRef_inplace (fun _ => 1) id [[PyVal.df dfW1, PyVal.df dfW2]] 0
    [dfW1, dfW2] [[[1]], [[1]]] rfl
    (by norm_num [scale_sets, commonGenes, dfW1, dfW2, alignedSets, locDF,
      locRow, combined, totalWidth, hcat, colSums, normalizeCols,
      logNormalized, exprFilter, percentile, maskFilter, zeroMeanFilter,
      rowMean, popVar, cvOf, cvFilter, sliceCols, List.insertionSort,
      List.orderedInsert, String.le_iff_toList_le, List.find?,
      List.range_succ, List.replicate])

/-! Lemmas for the float-extended model. -/

theorem colSums_getD (w : Nat) (m : List (List ℚ)) {j : Nat} (hj : j < w) :
    (colSums w m).getD j 0 = (m.map (fun r => r.getD j 0)).sum := by
  simp only [colSums]
  rw [List.getD_eq_getElem _ _ (by simpa using hj), List.getElem_map,
    List.getElem_range]

theorem sum_nonneg_all_zero {l : List ℚ} (h0 : l.sum = 0)
    (hn : ∀ x ∈ l, 0 ≤ x) : ∀ x ∈ l, x = 0 := by
  induction l with
  | nil =>
      intro x hx
      cases hx
  | cons a l ih =>
      have hts : 0 ≤ l.sum :=
        List.sum_nonneg (fun x hx => hn x (List.mem_cons_of_mem _ hx))
      have ha : 0 ≤ a := hn a (List.mem_cons_self _ _)
      rw [List.sum_cons] at h0
      have ha0 : a = 0 := le_antisymm (by linarith) ha
      have hl0 : l.sum = 0 := by linarith
      intro x hx
      rcases List.mem_cons.mp hx with rfl | hx2
      · exact ha0
      · exact ih hl0 (fun y hy => hn y (List.mem_cons_of_mem _ hy)) x hx2

theorem efSum_map_some (l : List ℚ) : efSum (l.map some) = some l.sum := by
  induction l with
  | nil => rfl
  | cons a l ih =>
      show efAdd (some a) (efSum (l.map some)) = some (a :: l).sum
      rw [ih, List.sum_cons]
      rfl

theorem efSum_eq_none {l : List EF} (h : none ∈ l) : efSum l = none := by
  induction l with
  | nil => cases h
  | cons a l ih =>
      rcases List.mem_cons.mp h with rfl | h2
      · show efAdd none (efSum l) = none
        cases efSum l <;> rfl
      · show efAdd a (efSum l) = none
        rw [ih h2]
        cases a <;> rfl

theorem getD_map_some (r : List ℚ) (j : Nat) :
    (r.map some).getD j (some 0) = some (r.getD j 0) := by
  rw [List.getD_eq_getElem?_getD, List.getD_eq_getElem?_getD, List.getElem?_map]
  cases r[j]? <;> rfl

theorem efColSums_lift (w : Nat) (m : List (List ℚ)) :
    efColSums w (m.map (fun r => r.map some)) = (colSums w m).map some := by
  simp only [efColSums, colSums, List.map_map]
  refine List.map_congr_left ?_
  intro j _
  simp only [Function.comp_def]
  have h1 : m.map (fun r => (r.map some).getD j (some 0)) =
      (m.map (fun r => r.getD j 0)).map some := by
    rw [List.map_map]
    exact List.map_congr_left (fun r _ => getD_map_some r j)
  rw [h1, efSum_map_some]

theorem efDiv_zero (x : EF) : efDiv x (some 0) = none := by
  cases x <;> simp [efDiv]

theorem efMul_none_left (x : EF) : efMul none x = none := by
  cases x <;> rfl

theorem efLe_none_right (x : EF) : efLe x none = false := by
  cases x <;> rfl

theorem efMaskFilter_nil_of_false (m : List (List EF)) (ks : List Bool)
    (h : ∀ b ∈ ks, b = false) : efMaskFilter m ks = [] := by
  simp only [efMaskFilter]
  have hfil : (m.zip ks).filter (fun p => p.2) = [] := by
    rw [List.filter_eq_nil_iff]
    intro p hp
    have := h p.2 (List.of_mem_zip hp).2
    simp [this]
  rw [hfil]
  rfl

theorem efPercentile_cons_isSome (p : ℚ) (x : EF) (xs : List EF) :
    ∃ v, efPercentile p (x :: xs) = some v :=
  ⟨_, rfl⟩

theorem efColSums_length (w : Nat) (m : List (List EF)) :
    (efColSums w m).length = w := by
  simp [efColSums]

/-- C6 (amended): scale_sets performs no zero-column-sum detection.  In
the float-extended model of the reference semantics, a zero-sum column of
the non-negative aligned combined matrix is all-zero; its normalization
divides zero by zero and puts NaN into every row, so every row sum is
NaN, the expression filter's comparisons against the NaN percentiles are
all false and every row is dropped, and the run ends with the generic
empty-array percentile error at the CV stage — not with a ZeroColumnSum
error, and no NaN reaches the output because the run raises first. -/
theorem efScale_sets_zerocol (lg rsqrt : ℚ → ℚ) (sets : List DF) (j : Nat)
    (hwf : ∀ s ∈ sets, s.WF)
    (hnonneg : ∀ r ∈ combined sets, ∀ x ∈ r, 0 ≤ x)
    (hj : j < totalWidth sets)
    (hz : (colSums (totalWidth sets) (combined sets)).getD j 0 = 0)
    (hne : combined sets ≠ []) :
    (∀ e ∈ (efLogNormalized lg sets).map efSum, e = none) ∧
    efExprFilter (efLogNormalized lg sets) = some [] ∧
    efScale_sets lg rsqrt sets = Except.error ScaleErr.emptyPercentile := by
  have hcol0 : ∀ r ∈ combined sets, r.getD j 0 = 0 := by
    have hsum0 : ((combined sets).map (fun r => r.getD j 0)).sum = 0 := by
      rw [← colSums_getD (totalWidth sets) (combined sets) hj]
      exact hz
    have hterms : ∀ x ∈ (combined sets).map (fun r => r.getD j 0), 0 ≤ x := by
      intro x hx
      simp only [List.mem_map] at hx
      obtain ⟨r, hr, rfl⟩ := hx
      have hjr : j < r.length := by
        rw [combined_row_length hwf r hr]
        exact hj
      rw [List.getD_eq_getElem _ _ hjr]
      exact hnonneg r hr _ (List.getElem_mem hjr)
    intro r hr
    exact sum_nonneg_all_zero hsum0 hterms _ (List.mem_map_of_mem _ hr)
  have hS : (efColSums (totalWidth sets) (efCombined sets)).getD j (some 0) =
      some 0 := by
    rw [show efCombined sets = (combined sets).map (fun r => r.map some) from rfl,
      efColSums_lift, getD_map_some, hz]
  have hrowNaN : ∀ t ∈ efLogNormalized lg sets, efSum t = none := by
    intro t ht
    simp only [efLogNormalized, efNormalizeCols, List.map_map, List.mem_map,
      Function.comp_def] at ht
    obtain ⟨mr, hmr, rfl⟩ := ht
    simp only [efCombined, List.mem_map] at hmr
    obtain ⟨r, hr, rfl⟩ := hmr
    apply efSum_eq_none
    have hlenr : (r.map some).length = totalWidth sets := by
      rw [List.length_map, combined_row_length hwf r hr]
    have hlenS : (efColSums (totalWidth sets) (efCombined sets)).length =
        totalWidth sets := efColSums_length _ _
    have hjz : j < (List.zipWith
        (fun x s => efMul (efDiv x s) (some 20000)) (r.map some)
        (efColSums (totalWidth sets) (efCombined sets))).length := by
      rw [List.length_zipWith, hlenr, hlenS]
      simpa using hj
    have hentry : (List.zipWith
        (fun x s => efMul (efDiv x s) (some 20000)) (r.map some)
        (efColSums (totalWidth sets) (efCombined sets)))[j] = none := by
      rw [List.getElem_zipWith]
      have hSj : (efColSums (totalWidth sets) (efCombined sets))[j] = some 0 := by
        rw [← List.getD_eq_getElem _ (some 0) (by rw [hlenS]; exact hj)]
        exact hS
      rw [hSj, efDiv_zero, efMul_none_left]
    refine List.mem_map.mpr ⟨none, ?_, rfl⟩
    rw [← hentry]
    exact List.getElem_mem hjz
  have hC1 : ∀ e ∈ (efLogNormalized lg sets).map efSum, e = none := by
    intro e he
    simp only [List.mem_map] at he
    obtain ⟨t, ht, rfl⟩ := he
    exact hrowNaN t ht
  have hexpr : efExprFilter (efLogNormalized lg sets) = some [] := by
    cases hL : (efLogNormalized lg sets).map efSum with
    | nil =>
        exfalso
        apply hne
        have hlen : (efLogNormalized lg sets).length = (combined sets).length := by
          simp [efLogNormalized, efNormalizeCols, efCombined]
        have : (efLogNormalized lg sets).length = 0 := by
          rw [← List.length_map (efLogNormalized lg sets) efSum, hL]
          rfl
        rw [hlen] at this
        exact List.length_eq_zero.mp this
    | cons e0 rest =>
        obtain ⟨v1, hv1⟩ := efPercentile_cons_isSome 1 e0 rest
        obtain ⟨v2, hv2⟩ := efPercentile_cons_isSome 99 e0 rest
        simp only [efExprFilter, hL, hv1, hv2]
        congr 1
        apply efMaskFilter_nil_of_false
        intro b hb
        simp only [List.mem_map] at hb
        obtain ⟨e, he, rfl⟩ := hb
        have hen : e = none := hC1 e (by rw [hL]; exact he)
        rw [hen, efLe_none_right, Bool.false_and]
  refine ⟨hC1, hexpr, ?_⟩
  unfold efScale_sets
  rw [hexpr]
  rfl

/-- C6 counterexample: the aligned combined matrix of dfW1 and dfZ2 is
[[2, 0]] and its second column sums to zero before normalization, yet
scale_sets surfaces no ZeroColumnSum error: the division by the zero
column sum silently yields NaN, the single row sum becomes NaN, the
expression filter drops the row, and the run fails with the generic
empty-array percentile error at the CV stage. -/
theorem efScale_sets_zerocol_cex :
    (colSums (totalWidth [dfW1, dfZ2]) (combined [dfW1, dfZ2])).getD 1 0 = 0 ∧
    (efLogNormalized id [dfW1, dfZ2]).map efSum = [none] ∧
    efExprFilter (efLogNormalized id [dfW1, dfZ2]) = some [] ∧
    efScale_sets id id [dfW1, dfZ2] = Except.error ScaleErr.emptyPercentile := by
  refine ⟨?_, ?_, ?_, ?_⟩
  · norm_num +decide [colSums, totalWidth, combined, alignedSets, locDF,
      locRow, commonGenes, dfW1, dfZ2, hcat, List.insertionSort,
      List.orderedInsert, List.find?, List.range_succ]
  · norm_num +decide [efLogNormalized, efNormalizeCols, efCombined, combined,
      totalWidth, alignedSets, locDF, locRow, commonGenes, dfW1, dfZ2, hcat,
      efColSums, efSum, efAdd, efMul, efDiv, List.insertionSort,
      List.orderedInsert, List.find?, List.range_succ]
  · norm_num +decide [efExprFilter, efPercentile, efMaskFilter, efLe,
      efSortLeB, efSub, efLogNormalized, efNormalizeCols, efCombined,
      combined, totalWidth, alignedSets, locDF, locRow, commonGenes, dfW1,
      dfZ2, hcat, efColSums, efSum, efAdd, efMul, efDiv, List.insertionSort,
      List.orderedInsert, List.find?, List.range_succ]
  · norm_num +decide [efScale_sets, efExprFilter, efCvFilter,
      efZeroMeanFilter, efCvOf, efVar, efMean, efPercentile, efMaskFilter,
      efLe, efLt, efSortLeB, efSub, efLogNormalized, efNormalizeCols,
      efCombined, combined, totalWidth, alignedSets, locDF, locRow,
      commonGenes, dfW1, dfZ2, hcat, efColSums, efSum, efAdd, efMul, efDiv,
      List.insertionSort, List.orderedInsert, List.find?, List.range_succ]

/-- Witness for efScale_sets_zerocol: the general zero-column theorem
applied to the concrete pair dfW1, dfZ2 at column 1, with every
hypothesis discharged by evaluation. -/
theorem efScale_sets_zerocol_witness :
    (∀ e ∈ (efLogNormalized (fun _ => 1) [dfW1, dfZ2]).map efSum, e = none) ∧
    efExprFilter (efLogNormalized (fun _ => 1) [dfW1, dfZ2]) = some [] ∧
    efScale_sets (fun _ => 1) id [dfW1, dfZ2] = Except.error ScaleErr.emptyPercentile :=
  efScale_sets_zerocol (fun _ => 1) id [dfW1, dfZ2] 1
    (by
      intro s hs
      rcases List.mem_cons.mp hs with rfl | hs2
      · exact ⟨rfl, by simp [dfW1]⟩
      · rcases List.mem_cons.mp hs2 with rfl | hs3
        · exact ⟨rfl, by simp [dfZ2]⟩
        · cases hs3)
    (by
      have hc : combined [dfW1, dfZ2] = [[2, 0]] := by
        norm_num +decide [combined, alignedSets, locDF, locRow, commonGenes,
          dfW1, dfZ2, hcat, List.insertionSort, List.orderedInsert,
          List.find?]
      rw [hc]
      intro r hr x hx
      rcases List.mem_cons.mp hr with rfl | hr2
      · rcases List.mem_cons.mp hx with rfl | hx2
        · norm_num
        · rcases List.mem_cons.mp hx2 with rfl | hx3
          · norm_num
          · cases hx3
      · cases hr2)
    (by norm_num +decide [totalWidth, alignedSets, locDF, commonGenes, dfW1,
        dfZ2, List.insertionSort, List.orderedInsert, List.find?])
    (by norm_num +decide [colSums, totalWidth, combined, alignedSets, locDF,
        locRow, commonGenes, dfW1, dfZ2, hcat, List.insertionSort,
        List.orderedInsert, List.find?, List.range_succ])
    (by
      have hc : combined [dfW1, dfZ2] = [[2, 0]] := by
        norm_num +decide [combined, alignedSets, locDF, locRow, commonGenes,
          dfW1, dfZ2, hcat, List.insertionSort, List.orderedInsert,
          List.find?]
      rw [hc]
      simp)
